import Mathlib

/-!
Verification of the lmql batched-streaming core against its design
specification.

The definitions below are shallow embeddings of the Python source under
`src/lmql/`:

* `src/lmql/models/model_info.py` — chat-model classification,
* `src/lmql/runtime/bopenai/openai_api.py` — `Capacity` / `CapacitySemaphore`
  and the role-tag parser `tagged_segments`,
* `src/lmql/runtime/bopenai/batched_openai.py` — `Batcher`, `response_buffer`,
  `ResponseStreamSliceIterator` and the logit-bias truncation in
  `AsyncOpenAIAPI.complete`,
* `src/lmql/models/lmtp/lmtp_multiprocessing.py` — the LMTP stream iterator,
* `src/lmql/runtime/formatting.py` — the chat-message serializer
  `format_chat`.

Python strings are modelled as `List Char` (`Str`), Python ints as `Nat`/`Int`
and floats that are only carried (never computed with) as `ℚ`.
-/

/-- Python strings, modelled as lists of characters so that slicing and
concatenation lemmas are directly available. -/
abbrev Str := List Char

/-! ## Chat-model classification (`src/lmql/models/model_info.py`)

`model_info(model_identifier)` returns `ModelInfo(is_chat_model=False)` iff

    model_identifier in ["openai/gpt-3.5-turbo-instruct", "gpt-3.5-turbo-instruct"]
    or model_identifier not in ["openai/gpt-4", "gpt-4"]
       and "gpt-3.5-turbo" not in model_identifier
       and "openai/gpt-4" not in model_identifier

where `in` on strings is substring containment. -/

/-- Python's `needle in hay` on strings: substring containment. -/
def strContains (hay needle : Str) : Prop := needle <:+: hay

instance (hay needle : Str) : Decidable (strContains hay needle) :=
  List.decidableInfix needle hay

/-- `model_info` from `src/lmql/models/model_info.py`, restricted to its one
field `is_chat_model`. -/
def model_info_is_chat (m : String) : Bool :=
  if (m = "openai/gpt-3.5-turbo-instruct" ∨ m = "gpt-3.5-turbo-instruct")
      ∨ (¬ (m = "openai/gpt-4" ∨ m = "gpt-4")
         ∧ ¬ strContains m.data "gpt-3.5-turbo".data
         ∧ ¬ strContains m.data "openai/gpt-4".data) then
    false
  else
    true

/-! ## Capacity governor (`src/lmql/runtime/bopenai/openai_api.py`, lines 25–53)

`CapacitySemaphore.__aenter__` loops: while `Capacity.reserved >= Capacity.total`
it sleeps; once `Capacity.reserved < Capacity.total` it performs
`Capacity.reserved += self.capacity` and proceeds.  `__aexit__` performs
`Capacity.reserved -= self.capacity`.  The loop body is a non-suspending
read-modify-write, so each acquire/release is one atomic step of the
cooperative scheduler. -/

/-- The semaphore's acquire step as a guard plus update: `none` when the task
keeps sleeping (`reserved >= total`), otherwise the updated `reserved`. -/
def capacityAcquireStep (total reserved : Int) (n : Nat) : Option Int :=
  if reserved ≥ total then none else some (reserved + n)

/-- The semaphore's release step (`__aexit__`): `reserved -= capacity`. -/
def capacityReleaseStep (reserved : Int) (n : Nat) : Int := reserved - n

/-- Capacity state: the module-level `Capacity.reserved` counter, together with
the ghost list of reservations currently held inside a `CapacitySemaphore`
context (each `__aexit__` releases exactly the amount its `__aenter__`
acquired, so releases are always matched). -/
structure CapState where
  reserved : Int
  held : List Nat
deriving DecidableEq

/-- One scheduler step of the capacity pair: an `__aenter__` that passed its
guard, or a matched `__aexit__`. -/
inductive CapStep (total : Int) : CapState → CapState → Prop
  | acquire (n : Nat) (s : CapState) (h : capacityAcquireStep total s.reserved n ≠ none) :
      CapStep total s ⟨s.reserved + n, n :: s.held⟩
  | release (n : Nat) (s : CapState) (h : n ∈ s.held) :
      CapStep total s ⟨capacityReleaseStep s.reserved n, s.held.erase n⟩

/-- States reachable from the initial `Capacity.reserved = 0` with no held
reservations. -/
def CapReachable (total : Int) : CapState → Prop :=
  Relation.ReflTransGen (CapStep total) ⟨0, []⟩

lemma capacityAcquireStep_ne_none_iff (total reserved : Int) (n : Nat) :
    capacityAcquireStep total reserved n ≠ none ↔ reserved < total := by
  unfold capacityAcquireStep
  by_cases h : reserved ≥ total
  · simp [h]
  · simp [h]
    omega

/-- In every reachable state, `reserved` is the sum of the held reservations. -/
lemma capReachable_sum (total : Int) (s : CapState) (h : CapReachable total s) :
    s.reserved = ((s.held.map (Int.ofNat)).sum) := by
  induction h with
  | refl => simp
  | tail _ step ih =>
    cases step
    case acquire n hg =>
      simp only [List.map_cons, List.sum_cons, Int.ofNat_eq_natCast, ih]
      omega
    case release n hm =>
      have hsum := ((List.perm_cons_erase hm).map Int.ofNat).sum_eq
      simp only [List.map_cons, List.sum_cons, Int.ofNat_eq_natCast] at hsum
      simp only [capacityReleaseStep, ih, hsum, Int.ofNat_eq_natCast]
      omega

/-- C10: `model_info(m).is_chat_model` is true exactly when `m` is `"gpt-4"` or
`"openai/gpt-4"`, or `m` contains `"gpt-3.5-turbo"` or `"openai/gpt-4"` as a
substring, except that `"gpt-3.5-turbo-instruct"` and
`"openai/gpt-3.5-turbo-instruct"` are classified as non-chat models. -/
theorem c10_chat_model_classification (m : String) :
    model_info_is_chat m = true ↔
      ((m = "gpt-4" ∨ m = "openai/gpt-4"
        ∨ strContains m.data "gpt-3.5-turbo".data
        ∨ strContains m.data "openai/gpt-4".data)
       ∧ m ≠ "gpt-3.5-turbo-instruct" ∧ m ≠ "openai/gpt-3.5-turbo-instruct") := by
  unfold model_info_is_chat
  split
  · rename_i h
    simp only [Bool.false_eq_true, false_iff]
    tauto
  · rename_i h
    push_neg at h
    simp only [true_iff]
    tauto

/-- C1, counterexample: with `total = 10` and `reserved = 0`, an acquire of
`n = 15` passes the guard (`reserved < total`) even though
`reserved + n > total`, and leads to the reachable state `reserved = 15 > 10`,
refuting both "blocks until `reserved + n ≤ total`" and the invariant
"`reserved ≤ total` at every point". -/
theorem c1_capacity_counterexample :
    capacityAcquireStep 10 0 15 = some 15
    ∧ ¬ ((0 : Int) + 15 ≤ 10)
    ∧ CapReachable 10 ⟨15, [15]⟩
    ∧ ¬ ((15 : Int) ≤ 10) := by
  refine ⟨by decide, by decide, ?_, by decide⟩
  exact Relation.ReflTransGen.single
    (show CapStep 10 ⟨0, []⟩ ⟨15, [15]⟩ by
      simpa using @CapStep.acquire 10 15 ⟨0, []⟩ (by decide))

/-- C1, amended: `acquire(n)` blocks exactly until `reserved < total` (not
until `reserved + n ≤ total`) and then adds `n`, so after a successful
acquire `reserved < total + n`; `release` decrements `reserved` by the
acquired `n`; and in every state reachable through matched
acquire/release pairs `reserved` is non-negative. -/
theorem c1_capacity_amended (total reserved : Int) (n : Nat) (s : CapState)
    (h : CapReachable total s) :
    (capacityAcquireStep total reserved n ≠ none ↔ reserved < total)
    ∧ (∀ r, capacityAcquireStep total reserved n = some r →
        r = reserved + n ∧ (reserved < total → r < total + n))
    ∧ 0 ≤ s.reserved
    ∧ capacityReleaseStep s.reserved n = s.reserved - n := by
  refine ⟨capacityAcquireStep_ne_none_iff total reserved n, ?_, ?_, rfl⟩
  · intro r hr
    unfold capacityAcquireStep at hr
    by_cases hge : reserved ≥ total
    · simp [hge] at hr
    · simp [hge] at hr
      omega
  · rw [capReachable_sum total s h]
    exact List.sum_nonneg (by
      intro x hx
      obtain ⟨k, _, rfl⟩ := List.mem_map.mp hx
      exact Int.ofNat_nonneg k)

/-- C1, witness for the amended theorem at `total = 10`, `reserved = 3`,
`n = 2` and the initial state. -/
theorem c1_capacity_amended_witness :
    (capacityAcquireStep 10 3 2 ≠ none ↔ (3 : Int) < 10)
    ∧ (∀ r, capacityAcquireStep 10 3 2 = some r →
        r = 3 + 2 ∧ ((3 : Int) < 10 → r < 10 + 2))
    ∧ 0 ≤ (CapState.mk 0 []).reserved
    ∧ capacityReleaseStep (CapState.mk 0 []).reserved 2 = (CapState.mk 0 []).reserved - 2 :=
  c1_capacity_amended 10 3 2 ⟨0, []⟩ Relation.ReflTransGen.refl

/-! ## Recovery prompt construction
(`src/lmql/runtime/bopenai/batched_openai.py`, `ResponseStreamSliceIterator.recover`,
lines 382–393)

    recovery_kwargs = self.slice.kwargs.copy()
    if len(self.consumed_tokens) > 0:
        prompt = self.consumed_tokens
        if type(prompt[0]) is str:
            recovery_kwargs["prompt"] = "".join(list(prompt))
        else:
            recovery_kwargs["prompt"] = [t[0] for t in prompt]
-/

/-- A consumed token as stored in `consumed_tokens`: either a plain string or a
tuple whose first component is a token id (`t[0]`). -/
inductive PTok where
  | str (s : Str)
  | ids (l : List Int)
deriving DecidableEq

/-- A request prompt: a string or a token-id sequence. -/
inductive PromptV where
  | str (s : Str)
  | ids (l : List Int)
deriving DecidableEq

/-- The string payload of a consumed token (`"".join` reads each element as a
string; a tuple there is a `TypeError` in the source, so the `ids` value is
never exercised). -/
def strTokVal : PTok → Str
  | PTok.str s => s
  | PTok.ids _ => []

/-- `t[0]` on a consumed id-tuple token (a string there is unreachable for the
same reason, and a tuple is non-empty). -/
def idTokVal : PTok → Int
  | PTok.str _ => 0
  | PTok.ids l => l.headD 0

/-- The `prompt` entry of the `recovery_kwargs` built by `recover()`. -/
def recoveryPrompt (orig : PromptV) (consumed : List PTok) : PromptV :=
  match consumed with
  | [] => orig
  | t :: _ =>
    match t with
    | PTok.str _ => PromptV.str (consumed.map strTokVal).flatten
    | PTok.ids _ => PromptV.ids (consumed.map idTokVal)

lemma map_strTokVal (ss : List Str) : (ss.map PTok.str).map strTokVal = ss := by
  induction ss with
  | nil => rfl
  | cons s rest ih => simp [strTokVal, ih]

lemma map_idTokVal (ls : List (List Int)) :
    (ls.map PTok.ids).map idTokVal = ls.map fun l => l.headD 0 := by
  induction ls with
  | nil => rfl
  | cons l rest ih => simp [idTokVal, ih]

/-- C2, counterexample: with original prompt `"AB"` and one consumed token
`"X"`, the recovery request's prompt is `"X"`, not the original prompt
concatenated with the consumed tokens (`"ABX"`). -/
theorem c2_recover_counterexample :
    recoveryPrompt (PromptV.str "AB".data) [PTok.str "X".data] = PromptV.str "X".data
    ∧ PromptV.str "X".data ≠ PromptV.str ("AB".data ++ "X".data) := by
  decide

/-- C2, amended: for an iterator that has consumed at least one token, the
recovery request's prompt is exactly the consumed tokens — the joined strings
when tokens are strings, the list of first components when they are id
tuples — *replacing* the original prompt (which survives only inside the
consumed tokens because `echo=True` replays it through the stream). -/
theorem c2_recover_amended (orig : PromptV) (ss : List Str) (ls : List (List Int)) :
    (ss ≠ [] → recoveryPrompt orig (ss.map PTok.str) = PromptV.str ss.flatten)
    ∧ (ls ≠ [] → recoveryPrompt orig (ls.map PTok.ids)
        = PromptV.ids (ls.map fun l => l.headD 0)) := by
  constructor
  · intro h
    cases ss with
    | nil => exact absurd rfl h
    | cons s rest =>
      show PromptV.str (((s :: rest).map PTok.str).map strTokVal).flatten
          = PromptV.str (s :: rest).flatten
      rw [map_strTokVal]
  · intro h
    cases ls with
    | nil => exact absurd rfl h
    | cons l rest =>
      show PromptV.ids (((l :: rest).map PTok.ids).map idTokVal)
          = PromptV.ids ((l :: rest).map fun l => l.headD 0)
      rw [map_idTokVal]

/-- C2, witness for the amended theorem on one consumed string token and one
consumed id-tuple token. -/
theorem c2_recover_amended_witness :
    recoveryPrompt (PromptV.str "p".data) (["X".data].map PTok.str)
      = PromptV.str (["X".data].flatten)
    ∧ recoveryPrompt (PromptV.str "p".data) ([[5, 7]].map PTok.ids)
      = PromptV.ids ([[5, 7]].map fun l => l.headD 0) :=
  ⟨(c2_recover_amended (PromptV.str "p".data) ["X".data] [[5, 7]]).1 (by simp),
   (c2_recover_amended (PromptV.str "p".data) ["X".data] [[5, 7]]).2 (by simp)⟩

/-! ## RecoveryAttempt dispatch
(`src/lmql/runtime/bopenai/batched_openai.py`, `ResponseStreamSliceIterator.__anext__`,
lines 500–516)

    if isinstance(data, RecoveryAttempt):
        if not self.slice.stream.scheduler.is_available():
            raise StopAsyncIteration()
        attempt: RecoveryAttempt = data
        warnings.warn(...)
        self.retries += 1
        if self.retries > attempt.maximum_retries:
            raise MaximumRetriesExceeded(attempt.error, retries=self.retries)
        if self.slice.stream.scheduler.tokenizer is None:
            print("Cannot recover from stream error without a configured tokenizer", ...)
            raise attempt.error
        return await self.recover()
-/

/-- Errors are carried opaquely through the recovery path; only their identity
matters, so they are modelled as strings. -/
abbrev ApiError := String

/-- What `__anext__` does with a dequeued `RecoveryAttempt`. -/
inductive RAOutcome where
  | stopIteration
  | maxRetriesExceeded (error : ApiError) (retries : Nat)
  | raiseUnderlying (error : ApiError)
  | recover
deriving DecidableEq

/-- The `RecoveryAttempt` branch of `__anext__`: `available` is
`scheduler.is_available()`, `tokenizerConfigured` is
`scheduler.tokenizer is not None`, `retries` the iterator's count before the
increment, `maximumRetries` the attempt's budget and `error` its cause. -/
def handleRecoveryAttempt (available tokenizerConfigured : Bool)
    (retries maximumRetries : Nat) (error : ApiError) : RAOutcome :=
  if available = false then RAOutcome.stopIteration
  else
    let retries := retries + 1
    if retries > maximumRetries then RAOutcome.maxRetriesExceeded error retries
    else if tokenizerConfigured = false then RAOutcome.raiseUnderlying error
    else RAOutcome.recover

/-- C3: on a live scheduler, a `RecoveryAttempt` whose incremented retry count
exceeds the attempt's `maximum_retries` raises `MaximumRetriesExceeded`
carrying the attempt's original error; otherwise a missing tokenizer makes
`__anext__` re-raise the underlying error itself; otherwise recovery
proceeds. -/
theorem c3_recovery_attempt_dispatch (tokenizerConfigured : Bool)
    (retries maximumRetries : Nat) (error : ApiError) :
    (retries + 1 > maximumRetries →
      handleRecoveryAttempt true tokenizerConfigured retries maximumRetries error
        = RAOutcome.maxRetriesExceeded error (retries + 1))
    ∧ (retries + 1 ≤ maximumRetries → tokenizerConfigured = false →
      handleRecoveryAttempt true tokenizerConfigured retries maximumRetries error
        = RAOutcome.raiseUnderlying error)
    ∧ (retries + 1 ≤ maximumRetries → tokenizerConfigured = true →
      handleRecoveryAttempt true tokenizerConfigured retries maximumRetries error
        = RAOutcome.recover) := by
  unfold handleRecoveryAttempt
  refine ⟨fun h1 => ?_, fun h1 h2 => ?_, fun h1 h2 => ?_⟩
  · simp [h1]
  · simp [Nat.not_lt.mpr h1, h2]
  · simp [Nat.not_lt.mpr h1, h2]

/-- C3, witness: the three branches at concrete inputs. -/
theorem c3_recovery_attempt_dispatch_witness :
    handleRecoveryAttempt true true 5 3 "boom" = RAOutcome.maxRetriesExceeded "boom" 6
    ∧ handleRecoveryAttempt true false 0 5 "boom" = RAOutcome.raiseUnderlying "boom"
    ∧ handleRecoveryAttempt true true 0 5 "boom" = RAOutcome.recover :=
  ⟨(c3_recovery_attempt_dispatch true 5 3 "boom").1 (by decide),
   (c3_recovery_attempt_dispatch false 0 5 "boom").2.1 (by decide) rfl,
   (c3_recovery_attempt_dispatch true 0 5 "boom").2.2 (by decide) rfl⟩

/-! ## Slice iteration and end-of-text synthesis
(`src/lmql/runtime/bopenai/batched_openai.py`,
`ResponseStreamSliceIterator.get_next`/`__anext__`, lines 438–523)

A slice's `data_queue` carries token chunks, a `None` terminator (pushed by
`ResponseStreamSlice.finish`), a `RecoveryAttempt` (pushed by
`ResponseStreamSlice.error`) or a queued exception.  `get_next` stops as soon
as `self.slice.done` is set (returning a `RecoveryAttempt` when no item was
ever dequeued, `StopAsyncIteration` otherwise) and counts every dequeued item
in `self.n`.  On a dequeued `None`, `__anext__` ends the iteration when the
recorded `finish_reason` is `"length"`, and otherwise yields one synthesized
`<|endoftext|>` chunk and sets `done`. -/

/-- One parsed stream chunk as routed to a slice (`data["choices"][i]`): the
`text` and the four parallel `logprobs` arrays. -/
structure ApiChunk where
  text : Str
  text_offset : List Nat
  token_logprobs : List ℚ
  tokens : List Str
  top_logprobs : List (List (Str × ℚ))
deriving DecidableEq

/-- The end-of-text chunk synthesized by `__anext__` when a stream terminates
with a `finish_reason` other than `"length"`. -/
def eosChunk : ApiChunk :=
  ⟨"<|endoftext|>".data, [0], [0], ["<|endoftext|>".data], [[("<|endoftext|>".data, 0)]]⟩

/-- An entry of a slice's `data_queue`. -/
inductive QItem where
  | chunk (c : ApiChunk)
  | term
  | recovery
  | exc
deriving DecidableEq

/-- How a run of repeated `__anext__` calls ends. -/
inductive IterEnd where
  | stopIteration
  | recoveryTriggered
  | raisedFailure
  | blocked
deriving DecidableEq

/-- Repeated `__anext__` over a pre-filled `data_queue`: returns the yielded
chunks and how the iteration ends.  State: the recorded `finish_reason` of the
slice (constant once the stream has terminated), the `done` event, and the
item counter `n`.  An empty queue with `done` unset would suspend
(`blocked`); a dequeued `RecoveryAttempt` or exception leaves this loop for
the recovery/raise paths modelled by `handleRecoveryAttempt`. -/
def runIter (fr : Option String) : List QItem → Bool → Nat → List ApiChunk × IterEnd
  | _, true, n => ([], if n = 0 then IterEnd.recoveryTriggered else IterEnd.stopIteration)
  | [], false, _ => ([], IterEnd.blocked)
  | QItem.chunk c :: rest, false, n =>
      let r := runIter fr rest false (n + 1)
      (c :: r.1, r.2)
  | QItem.term :: rest, false, n =>
      if fr = some "length" then ([], IterEnd.stopIteration)
      else
        let r := runIter fr rest true (n + 1)
        (eosChunk :: r.1, r.2)
  | QItem.exc :: _, false, _ => ([], IterEnd.raisedFailure)
  | QItem.recovery :: _, false, _ => ([], IterEnd.recoveryTriggered)

lemma runIter_chunks (fr : Option String) (cs : List ApiChunk) (rest : List QItem) (n : Nat) :
    runIter fr (cs.map QItem.chunk ++ rest) false n
      = (cs ++ (runIter fr rest false (n + cs.length)).1,
         (runIter fr rest false (n + cs.length)).2) := by
  induction cs generalizing n with
  | nil => simp
  | cons c cs ih =>
    have harith : n + 1 + cs.length = n + (cs.length + 1) := by omega
    simp only [List.map_cons, List.cons_append, runIter, List.append_eq, ih, harith,
      List.length_cons]

/-- C4: a slice whose queue delivers chunks `cs` and then a clean terminator
yields, when the recorded `finish_reason` is null, exactly `cs` followed by
one synthesized `<|endoftext|>` chunk as its last element; when the recorded
`finish_reason` is `"length"`, it yields exactly `cs` with no synthesized
chunk. -/
theorem c4_eos_synthesis (cs : List ApiChunk) :
    (cs ≠ [] →
      runIter none (cs.map QItem.chunk ++ [QItem.term]) false 0
        = (cs ++ [eosChunk], IterEnd.stopIteration))
    ∧ runIter (some "length") (cs.map QItem.chunk ++ [QItem.term]) false 0
        = (cs, IterEnd.stopIteration) := by
  constructor
  · intro _
    rw [runIter_chunks]
    simp [runIter]
  · rw [runIter_chunks]
    simp [runIter]

/-- C4, witness: one delivered chunk, then a clean terminator, in both
finish-reason modes. -/
theorem c4_eos_synthesis_witness :
    runIter none ([⟨"hi".data, [0], [0], ["hi".data], [[("hi".data, 0)]]⟩].map QItem.chunk
        ++ [QItem.term]) false 0
      = ([⟨"hi".data, [0], [0], ["hi".data], [[("hi".data, 0)]]⟩] ++ [eosChunk],
         IterEnd.stopIteration)
    ∧ runIter (some "length")
        ([⟨"hi".data, [0], [0], ["hi".data], [[("hi".data, 0)]]⟩].map QItem.chunk
          ++ [QItem.term]) false 0
      = ([⟨"hi".data, [0], [0], ["hi".data], [[("hi".data, 0)]]⟩], IterEnd.stopIteration) :=
  ⟨(c4_eos_synthesis [⟨"hi".data, [0], [0], ["hi".data], [[("hi".data, 0)]]⟩]).1 (by simp),
   (c4_eos_synthesis [⟨"hi".data, [0], [0], ["hi".data], [[("hi".data, 0)]]⟩]).2⟩

/-! ## LMTP client stream iterator
(`src/lmql/models/lmtp/lmtp_multiprocessing.py`,
`LMTPMultiProcessingClient.stream_iterator`, lines 206–222)

    while True:
        item = await q.get()
        if item is None:
            break
        if item.get("error") is not None:
            raise LMTPStreamError(item["error"])
        if item.get("finish_reason") is not None:
            yield item
            break
        yield item
-/

/-- A `TOKEN` frame payload as it lands on a consumer queue. -/
structure LMTPChunk where
  token_id : Int
  text : Str
  logprob : ℚ
  finish_reason : Option String
  error : Option String
deriving DecidableEq

/-- How a run of the LMTP stream iterator ends. -/
inductive LMTPEnd where
  | closed
  | finished
  | errored (e : Option String)
  | blocked
deriving DecidableEq

/-- `stream_iterator` over a pre-filled consumer queue: queue entries are
`TOKEN` payloads or the `None` pushed by `close()`.  Returns the yielded
chunks and how the loop ends (an empty queue would suspend in
`await q.get()`). -/
def stream_iterator : List (Option LMTPChunk) → List LMTPChunk × LMTPEnd
  | [] => ([], LMTPEnd.blocked)
  | none :: _ => ([], LMTPEnd.closed)
  | some item :: rest =>
      if item.error ≠ none then ([], LMTPEnd.errored item.error)
      else if item.finish_reason ≠ none then ([item], LMTPEnd.finished)
      else
        let r := stream_iterator rest
        (item :: r.1, r.2)

/-- A sample non-terminal `TOKEN` frame. -/
def lmtpTokA : LMTPChunk := ⟨1, "a".data, 0, none, none⟩

/-- A sample terminal `TOKEN` frame with `finish_reason = "length"`. -/
def lmtpTokB : LMTPChunk := ⟨2, "b".data, 0, some "length", none⟩

/-- C9, counterexample: a queue with 1 `TOKEN` frame without `finish_reason`
followed by 1 terminal frame with `finish_reason = "length"` makes the
iterator yield 2 chunks — the terminal frame is itself yielded — not exactly
1 as claimed. -/
theorem c9_stream_iterator_counterexample :
    stream_iterator [some lmtpTokA, some lmtpTokB]
      = ([lmtpTokA, lmtpTokB], LMTPEnd.finished)
    ∧ (stream_iterator [some lmtpTokA, some lmtpTokB]).1.length ≠ 1 := by
  decide

/-- C9, amended: with `n` `TOKEN` frames without `finish_reason` followed by
one terminal frame with `finish_reason` set, the iterator yields exactly
`n + 1` chunks — the `n` token frames and then the terminal frame itself —
and terminates without synthesizing any end-of-text chunk. -/
theorem c9_stream_iterator_amended (items : List LMTPChunk) (t : LMTPChunk)
    (hitems : ∀ it ∈ items, it.error = none ∧ it.finish_reason = none)
    (hterr : t.error = none) (hfr : t.finish_reason ≠ none) :
    stream_iterator ((items ++ [t]).map some) = (items ++ [t], LMTPEnd.finished)
    ∧ (stream_iterator ((items ++ [t]).map some)).1.length = items.length + 1 := by
  have hmain : stream_iterator ((items ++ [t]).map some) = (items ++ [t], LMTPEnd.finished) := by
    induction items with
    | nil => simp [stream_iterator, hterr, hfr]
    | cons it rest ih =>
      have h1 := (hitems it (List.mem_cons_self it rest)).1
      have h2 := (hitems it (List.mem_cons_self it rest)).2
      have ih2 := ih (fun x hx => hitems x (List.mem_cons_of_mem it hx))
      simp only [List.map_append, List.map_cons, List.map_nil] at ih2 ⊢
      simp [stream_iterator, h1, h2, ih2]
  exact ⟨hmain, by rw [hmain]; simp⟩

/-- C9, witness for the amended theorem at `n = 1`. -/
theorem c9_stream_iterator_amended_witness :
    stream_iterator (([lmtpTokA] ++ [lmtpTokB]).map some)
      = ([lmtpTokA] ++ [lmtpTokB], LMTPEnd.finished)
    ∧ (stream_iterator (([lmtpTokA] ++ [lmtpTokB]).map some)).1.length
      = [lmtpTokA].length + 1 :=
  c9_stream_iterator_amended [lmtpTokA] lmtpTokB (by decide) (by decide) (by decide)

/-! ## Logit-bias truncation
(`src/lmql/runtime/bopenai/batched_openai.py`, `AsyncOpenAIAPI.complete`,
lines 759–769)

    if "logit_bias" in kwargs and len(kwargs["logit_bias"]) > 300:
        biases = list(kwargs["logit_bias"].items())
        # make sure to always include eos if set and truncating
        if 50256 in kwargs["logit_bias"]:
            biases = biases[:299] + [(50256, kwargs["logit_bias"][50256])]
        else:
            biases = biases[:300]
        ...
        kwargs["logit_bias"] = dict(biases)

Python dicts are modelled as insertion-ordered association lists with
distinct keys; `dict(pairs)` keeps the first-occurrence position of each key
and the last value. -/

/-- One step of Python's `dict(pairs)` construction: overwrite the value at an
existing key in place, else append. -/
def dictInsert (d : List (Nat × Int)) (kv : Nat × Int) : List (Nat × Int) :=
  if d.any (fun p => p.1 == kv.1) then
    d.map (fun p => if p.1 == kv.1 then (p.1, kv.2) else p)
  else d ++ [kv]

/-- Python `dict(pairs)` on an association list. -/
def pyDict (l : List (Nat × Int)) : List (Nat × Int) := l.foldl dictInsert []

/-- Python `d[k]` on a dict with distinct keys (`0` stands for the
`KeyError` case, which is unreachable where used). -/
def biasLookup (l : List (Nat × Int)) (k : Nat) : Int :=
  match l.find? (fun p => p.1 == k) with
  | some p => p.2
  | none => 0

/-- The `logit_bias` actually used by `complete()`. -/
def truncate_logit_bias (bias : List (Nat × Int)) : List (Nat × Int) :=
  if 300 < bias.length then
    pyDict (if bias.any (fun p => p.1 == 50256)
            then bias.take 299 ++ [(50256, biasLookup bias 50256)]
            else bias.take 300)
  else bias

lemma foldl_dictInsert_nodup (l acc : List (Nat × Int))
    (h : ((acc ++ l).map Prod.fst).Nodup) : l.foldl dictInsert acc = acc ++ l := by
  induction l generalizing acc with
  | nil => simp
  | cons kv rest ih =>
    have hdisj : ∀ k ∈ acc.map Prod.fst, k ∉ ((kv :: rest).map Prod.fst) := by
      rw [List.map_append, List.nodup_append] at h
      exact fun k hk => h.2.2 hk
    have hnotin : acc.any (fun p => p.1 == kv.1) = false := by
      rw [Bool.eq_false_iff]
      intro hc
      obtain ⟨p, hp, hpk⟩ := List.any_eq_true.mp hc
      have hpk1 : p.1 = kv.1 := by simpa using hpk
      exact hdisj p.1 (List.mem_map_of_mem Prod.fst hp)
        (by rw [List.map_cons]; exact hpk1 ▸ List.mem_cons_self kv.1 (rest.map Prod.fst))
    have hstep : dictInsert acc kv = acc ++ [kv] := by
      unfold dictInsert
      rw [hnotin]
      simp
    rw [List.foldl_cons, hstep, ih (acc ++ [kv]) (by simpa using h)]
    simp

/-- `dict(pairs)` over pairs with distinct keys is the identity. -/
lemma pyDict_nodup (l : List (Nat × Int)) (h : (l.map Prod.fst).Nodup) :
    pyDict l = l := by
  unfold pyDict
  simpa using foldl_dictInsert_nodup l [] (by simpa using h)

lemma map_overwrite_same (l : List (Nat × Int)) (k : Nat) (v : Int)
    (hk : ∀ p ∈ l, p.1 = k → p.2 = v) :
    l.map (fun p => if p.1 == k then (p.1, v) else p) = l := by
  induction l with
  | nil => rfl
  | cons p rest ih =>
    have hrest := ih (fun q hq => hk q (List.mem_cons_of_mem p hq))
    rw [List.map_cons, hrest]
    cases hbeq : (p.1 == k) with
    | true =>
      have hp : p.1 = k := by simpa using hbeq
      have hv := hk p (List.mem_cons_self p rest) hp
      simp [hbeq, ← hv]
    | false => simp [hbeq]

lemma dictInsert_mem_same (l : List (Nat × Int)) (k : Nat) (v : Int)
    (hk : ∀ p ∈ l, p.1 = k → p.2 = v)
    (hmem : l.any (fun p => p.1 == k) = true) :
    dictInsert l (k, v) = l := by
  unfold dictInsert
  rw [hmem]
  simpa using map_overwrite_same l k v hk

/-- With distinct keys, any member's value is what lookup by its key finds. -/
lemma find_of_nodup (l : List (Nat × Int)) (h : (l.map Prod.fst).Nodup)
    (p : Nat × Int) (hp : p ∈ l) : l.find? (fun q => q.1 == p.1) = some p := by
  induction l with
  | nil => cases hp
  | cons q rest ih =>
    rcases List.mem_cons.mp hp with rfl | hmem
    · simp [List.find?_cons]
    · have hq : q.1 ≠ p.1 := by
        intro he
        have : p.1 ∈ rest.map Prod.fst := List.mem_map_of_mem Prod.fst hmem
        rw [List.map_cons, List.nodup_cons] at h
        exact h.1 (he ▸ this)
      have : (q.1 == p.1) = false := by simpa using hq
      rw [List.find?_cons, this]
      exact ih (by rw [List.map_cons, List.nodup_cons] at h; exact h.2) hmem

/-- C6, amended: for a `logit_bias` with more than 300 entries and distinct
keys, the bias actually used is: the first 300 entries when token id 50256 is
absent; the first 299 entries when 50256 occurs among the first 299 (one
further entry is lost); and the first 299 entries followed by 50256's entry
otherwise. -/
theorem c6_logit_bias_amended (bias : List (Nat × Int))
    (hnodup : (bias.map Prod.fst).Nodup) (hlen : 300 < bias.length) :
    truncate_logit_bias bias
      = if bias.any (fun p => p.1 == 50256) then
          (if (bias.take 299).any (fun p => p.1 == 50256)
           then bias.take 299
           else bias.take 299 ++ [(50256, biasLookup bias 50256)])
        else bias.take 300 := by
  have hnd299 : ((bias.take 299).map Prod.fst).Nodup :=
    List.Nodup.sublist ((List.take_sublist 299 bias).map Prod.fst) hnodup
  have hnd300 : ((bias.take 300).map Prod.fst).Nodup :=
    List.Nodup.sublist ((List.take_sublist 300 bias).map Prod.fst) hnodup
  unfold truncate_logit_bias
  rw [if_pos hlen]
  cases hc : bias.any (fun p => p.1 == 50256) with
  | false =>
    simp only [Bool.false_eq_true, if_false]
    exact pyDict_nodup _ hnd300
  | true =>
    simp only [if_true]
    cases h299 : (bias.take 299).any (fun p => p.1 == 50256) with
    | true =>
      simp only [if_true]
      have hsplit : pyDict (bias.take 299 ++ [(50256, biasLookup bias 50256)])
          = dictInsert (bias.take 299) (50256, biasLookup bias 50256) := by
        unfold pyDict
        rw [List.foldl_append]
        rw [show List.foldl dictInsert [] (bias.take 299) = bias.take 299 from
          pyDict_nodup _ hnd299]
        rfl
      rw [hsplit]
      apply dictInsert_mem_same
      · intro p hp hpk
        have hpb : p ∈ bias := List.mem_of_mem_take hp
        have hfind := find_of_nodup bias hnodup p hpb
        rw [← hpk]
        unfold biasLookup
        rw [hfind]
      · exact h299
    | false =>
      simp only [Bool.false_eq_true, if_false]
      have hnotin : 50256 ∉ (bias.take 299).map Prod.fst := by
        intro hin
        obtain ⟨p, hp, hpk⟩ := List.mem_map.mp hin
        rw [Bool.eq_false_iff] at h299
        exact h299 (List.any_eq_true.mpr ⟨p, hp, by simp [hpk]⟩)
      apply pyDict_nodup
      rw [List.map_append, List.nodup_append]
      refine ⟨hnd299, by simp, ?_⟩
      intro k hk
      simp only [List.map_cons, List.map_nil, List.mem_singleton]
      intro he
      exact hnotin (he ▸ hk)

/-- The 301-entry logit-bias mapping used in the C6 scenarios: the
end-of-text token id 50256 first, then token ids 0..299. -/
def cBias : List (Nat × Int) := (50256, 7) :: (List.range 300).map (fun i => (i, 1))

set_option maxRecDepth 10000 in
/-- C6, counterexample: for a 301-entry mapping whose first entry is the
end-of-text token 50256, the truncated bias has only 299 entries (the first
299 with the duplicate 50256 collapsed), not the first 300 entries of the
original mapping. -/
theorem c6_logit_bias_counterexample :
    truncate_logit_bias cBias ≠ cBias.take 300
    ∧ (truncate_logit_bias cBias).length = 299
    ∧ (cBias.take 300).length = 300 := by
  refine ⟨by decide, by decide, by decide⟩

set_option maxRecDepth 10000 in
/-- C6, witness for the amended theorem at the concrete 301-entry mapping. -/
theorem c6_logit_bias_amended_witness :
    truncate_logit_bias cBias
      = if cBias.any (fun p => p.1 == 50256) then
          (if (cBias.take 299).any (fun p => p.1 == 50256)
           then cBias.take 299
           else cBias.take 299 ++ [(50256, biasLookup cBias 50256)])
        else cBias.take 300 :=
  c6_logit_bias_amended cBias (by decide) (by decide)

/-! ## Batch grouping
(`src/lmql/runtime/bopenai/batched_openai.py`, `Batcher.task_type` /
`Batcher.group`, lines 60–90)

    def task_type(self, task):
        keys = ["model", "max_tokens", "temperature", "logprobs", "user", "logit_bias", "echo"]
        def get(k):
            if k == "logit_bias": return "-".join([f"{k}={v}" for k,v in sorted(task.get(k, {}).items())])
            return str(task.get(k, "<none>"))
        identifier = "|".join([f"{k}={get(k)}" for k in keys])
        identifier += "-str" if isinstance(task["prompt"], str) else "-int"
        return identifier

`group()` partitions `self.tasks` into insertion-ordered buckets keyed by
`task_type`, then emits each non-chat bucket whole and each chat bucket
(determined by `is_chat_model(bucket[0])`) as singletons. -/

/-- A queued request, with each scalar field carried as the string `str(...)`
would print (`none` = key absent, rendered `"<none>"`), `logit_bias` as an
association list, and the `is_azure_chat`/`api_config["chat_model"]`
determination of `is_chat_model` folded into `chatConfig`. -/
structure BTask where
  model : String
  maxTokens : Option String
  temperature : Option String
  logprobs : Option String
  user : Option String
  logitBias : List (Nat × Int)
  echo : Option String
  promptIsStr : Bool
  chatConfig : Bool
deriving DecidableEq

/-- `str(task.get(k, "<none>"))`. -/
def optStr : Option String → String
  | none => "<none>"
  | some s => s

/-- Insertion step for Python's `sorted` on key/value pairs with distinct
integer keys (sorting compares the key first). -/
def sortBiasInsert (p : Nat × Int) : List (Nat × Int) → List (Nat × Int)
  | [] => [p]
  | q :: rest => if p.1 ≤ q.1 then p :: q :: rest else q :: sortBiasInsert p rest

/-- `sorted(task.get("logit_bias", {}).items())`. -/
def sortBias (l : List (Nat × Int)) : List (Nat × Int) := l.foldr sortBiasInsert []

/-- `"-".join(f"{k}={v}" for k, v in sorted(....items()))`. -/
def encBias (l : List (Nat × Int)) : String :=
  String.intercalate "-" ((sortBias l).map (fun kv => toString kv.1 ++ "=" ++ toString kv.2))

/-- `Batcher.task_type`, the serialized batch key. -/
def task_type (t : BTask) : String :=
  "model=" ++ t.model
  ++ "|max_tokens=" ++ optStr t.maxTokens
  ++ "|temperature=" ++ optStr t.temperature
  ++ "|logprobs=" ++ optStr t.logprobs
  ++ "|user=" ++ optStr t.user
  ++ "|logit_bias=" ++ encBias t.logitBias
  ++ "|echo=" ++ optStr t.echo
  ++ (if t.promptIsStr then "-str" else "-int")

/-- The spec's BatchKey: the tuple of request fields that must be identical
for two requests to share a provider call (`logit_bias` normalized by
sorting). -/
structure BatchKeyT where
  model : String
  maxTokens : Option String
  temperature : Option String
  logprobs : Option String
  user : Option String
  logitBias : List (Nat × Int)
  echo : Option String
  promptIsStr : Bool
deriving DecidableEq

/-- The BatchKey of a task. -/
def batchKey (t : BTask) : BatchKeyT :=
  ⟨t.model, t.maxTokens, t.temperature, t.logprobs, t.user,
   sortBias t.logitBias, t.echo, t.promptIsStr⟩

/-- `is_chat_model(kwargs)` as seen by `Batcher.group`. -/
def isChatTask (t : BTask) : Bool := model_info_is_chat t.model || t.chatConfig

/-- Insertion-ordered bucket update (`buckets.setdefault(identifier, []).append(t)`). -/
def addToBuckets : List (String × List BTask) → String → BTask → List (String × List BTask)
  | [], key, t => [(key, [t])]
  | (k, l) :: rest, key, t =>
      if k = key then (k, l ++ [t]) :: rest else (k, l) :: addToBuckets rest key t

/-- The buckets built by `Batcher.group` over `self.tasks`. -/
def buckets (tasks : List BTask) : List (String × List BTask) :=
  tasks.foldl (fun bs t => addToBuckets bs (task_type t) t) []

/-- Emission of one bucket: chat buckets (determined by the bucket's first
member) as singletons, other buckets whole. -/
def emitBucket (b : String × List BTask) : List (List BTask) :=
  match b.2 with
  | [] => []
  | t0 :: _ => if isChatTask t0 then b.2.map (fun t => [t]) else [b.2]

/-- The member lists of the provider-call descriptors emitted by
`Batcher.group` (each descriptor's `make_request_args` carries exactly these
members' prompts, futures and request ids). -/
def groupTasks (tasks : List BTask) : List (List BTask) :=
  ((buckets tasks).map emitBucket).flatten

/-- All members of a bucket have the bucket's key as their `task_type`. -/
def BucketsWF (bs : List (String × List BTask)) : Prop :=
  ∀ b ∈ bs, ∀ t ∈ b.2, task_type t = b.1

lemma addToBuckets_wf (bs : List (String × List BTask)) (key : String) (t : BTask)
    (h : BucketsWF bs) (ht : task_type t = key) : BucketsWF (addToBuckets bs key t) := by
  induction bs with
  | nil =>
    intro b hb u hu
    rw [addToBuckets, List.mem_singleton] at hb
    subst hb
    rw [List.mem_singleton] at hu
    subst hu
    exact ht
  | cons hd rest ih =>
    intro b hb u hu
    rw [show addToBuckets (hd :: rest) key t
        = if hd.1 = key then (hd.1, hd.2 ++ [t]) :: rest
          else (hd.1, hd.2) :: addToBuckets rest key t from rfl] at hb
    by_cases hk : hd.1 = key
    · rw [if_pos hk, List.mem_cons] at hb
      rcases hb with rfl | hb
      · rcases List.mem_append.mp hu with hu | hu
        · exact h hd (List.mem_cons_self hd rest) u hu
        · rw [List.mem_singleton] at hu
          subst hu
          exact ht.trans hk.symm
      · exact h b (List.mem_cons_of_mem hd hb) u hu
    · rw [if_neg hk, List.mem_cons] at hb
      rcases hb with rfl | hb
      · exact h hd (List.mem_cons_self hd rest) u hu
      · exact ih (fun c hc => h c (List.mem_cons_of_mem hd hc)) b hb u hu

lemma buckets_wf (tasks : List BTask) : BucketsWF (buckets tasks) := by
  unfold buckets
  have : ∀ acc, BucketsWF acc →
      BucketsWF (tasks.foldl (fun bs t => addToBuckets bs (task_type t) t) acc) := by
    induction tasks with
    | nil => intro acc hacc; exact hacc
    | cons t rest ih =>
      intro acc hacc
      exact ih (addToBuckets acc (task_type t) t) (addToBuckets_wf acc (task_type t) t hacc rfl)
  exact this [] (by intro b hb; cases hb)

/-- C5, amended: every emitted provider-call descriptor contains only members
with the *same serialized batch-key string* (`task_type`), and every
descriptor whose first member is chat-style contains exactly one member.
(Identical `task_type` strings do not always mean identical BatchKey tuples:
`model`/`user` values containing the separator text can collide.) -/
theorem c5_batcher_amended (tasks : List BTask) :
    (∀ g ∈ groupTasks tasks, ∀ t1 ∈ g, ∀ t2 ∈ g, task_type t1 = task_type t2)
    ∧ (∀ g ∈ groupTasks tasks, ∀ t0 rest, g = t0 :: rest →
        isChatTask t0 = true → rest = []) := by
  have hwf := buckets_wf tasks
  have hmem : ∀ g ∈ groupTasks tasks,
      (∃ t, g = [t] ∧ ∃ b ∈ buckets tasks, t ∈ b.2)
      ∨ (∃ b ∈ buckets tasks, g = b.2
          ∧ ∃ t0 rest, b.2 = t0 :: rest ∧ isChatTask t0 = false) := by
    intro g hg
    unfold groupTasks at hg
    rw [List.mem_flatten] at hg
    obtain ⟨s, hs, hgs⟩ := hg
    rw [List.mem_map] at hs
    obtain ⟨b, hb, rfl⟩ := hs
    unfold emitBucket at hgs
    split at hgs
    · cases hgs
    · rename_i t0 rest2 hb2
      split at hgs
      · rename_i hchat
        rw [List.mem_map] at hgs
        obtain ⟨t, htb, rfl⟩ := hgs
        exact Or.inl ⟨t, rfl, b, hb, htb⟩
      · rename_i hchat
        rw [List.mem_singleton] at hgs
        exact Or.inr ⟨b, hb, hgs, t0, rest2, hb2,
          by rw [Bool.eq_false_iff]; exact hchat⟩
  constructor
  · intro g hg t1 ht1 t2 ht2
    rcases hmem g hg with ⟨t, rfl, _⟩ | ⟨b, hb, rfl, _⟩
    · rw [List.mem_singleton] at ht1 ht2
      rw [ht1, ht2]
    · rw [hwf b hb t1 ht1, hwf b hb t2 ht2]
  · intro g hg t0 rest hg0 hchat
    rcases hmem g hg with ⟨t, hgt, _⟩ | ⟨b, hb, rfl, u0, urest, hu, huchat⟩
    · rw [hgt] at hg0
      cases hg0
      rfl
    · rw [hu] at hg0
      cases hg0
      rw [hchat] at huchat
      cases huchat

/-- A task colliding with `c5TaskB` on `task_type` while differing in
BatchKey: its `user` string embeds the tail of the serialized key. -/
def c5TaskA : BTask :=
  { model := "m", maxTokens := some "1", temperature := some "0", logprobs := some "1",
    user := some "u|logit_bias=|echo=True|max_tokens=1|temperature=0|logprobs=1|user=u",
    logitBias := [], echo := some "True", promptIsStr := true, chatConfig := false }

/-- A task whose `model` string embeds the head of the serialized key. -/
def c5TaskB : BTask :=
  { model := "m|max_tokens=1|temperature=0|logprobs=1|user=u|logit_bias=|echo=True",
    maxTokens := some "1", temperature := some "0", logprobs := some "1",
    user := some "u", logitBias := [], echo := some "True", promptIsStr := true,
    chatConfig := false }

/-- C5, counterexample: two tasks with different BatchKeys (different `model`
and `user`) whose serialized `task_type` strings collide are fused into one
emitted descriptor, so a descriptor may contain members whose BatchKey is not
identical. -/
theorem c5_batcher_counterexample :
    groupTasks [c5TaskA, c5TaskB] = [[c5TaskA, c5TaskB]]
    ∧ task_type c5TaskA = task_type c5TaskB
    ∧ batchKey c5TaskA ≠ batchKey c5TaskB := by
  refine ⟨by decide, by decide, by decide⟩

/-- A chat-style task (`gpt-4`). -/
def c5TaskC : BTask :=
  { model := "gpt-4", maxTokens := some "8", temperature := some "0", logprobs := some "1",
    user := none, logitBias := [], echo := some "True", promptIsStr := true,
    chatConfig := false }

/-- C5, witness for the amended theorem on a single chat-style task. -/
theorem c5_batcher_amended_witness :
    task_type c5TaskC = task_type c5TaskC ∧ ([] : List BTask) = [] :=
  ⟨(c5_batcher_amended [c5TaskC]).1 [c5TaskC] (by decide) c5TaskC (by decide)
     c5TaskC (by decide),
   (c5_batcher_amended [c5TaskC]).2 [c5TaskC] (by decide) c5TaskC [] rfl (by decide)⟩

/-! ## Replayable response buffer
(`src/lmql/runtime/bopenai/batched_openai.py`, `response_buffer`, lines 269–354)

`_append(data)` concatenates the chunk's `text` and its four parallel
`logprobs` arrays onto the buffer and sets `num_tokens = len(logprobs["tokens"])`.
`get(i)` pulls chunks until `num_tokens > i`, raises `IndexError` when the
iterator is exhausted first, and otherwise returns

    text_start = self.logprobs["text_offset"][i]
    text_end = self.logprobs["text_offset"][i+1] if i+1 < len(...) else None
    {"text": self.text[text_start:text_end], "logprobs": {
        "text_offset": ...[i], "token_logprobs": ...[i],
        "tokens": ...[i], "top_logprobs": ...[i]}}
-/

/-- The memoised state of a `response_buffer`. -/
structure RBuf where
  text : Str
  text_offset : List Nat
  token_logprobs : List ℚ
  tokens : List Str
  top_logprobs : List (List (Str × ℚ))
deriving DecidableEq

/-- `self.num_tokens` (`len(self.logprobs["tokens"])`). -/
def numTokens (b : RBuf) : Nat := b.tokens.length

/-- `response_buffer._append(data)`. -/
def appendChunk (b : RBuf) (c : ApiChunk) : RBuf :=
  ⟨b.text ++ c.text, b.text_offset ++ c.text_offset,
   b.token_logprobs ++ c.token_logprobs, b.tokens ++ c.tokens,
   b.top_logprobs ++ c.top_logprobs⟩

/-- The freshly constructed buffer. -/
def emptyRBuf : RBuf := ⟨[], [], [], [], []⟩

/-- Python `text[start:stop]` with non-negative bounds (`none` = open end). -/
def pySlice (s : Str) (start : Nat) : Option Nat → Str
  | none => s.drop start
  | some stop => (s.take stop).drop start

/-- The record returned by `get(i)`. -/
structure RBRecord where
  text : Str
  text_offset : Nat
  token_logprob : ℚ
  token : Str
  top_logprobs : List (Str × ℚ)
deriving DecidableEq

/-- `get(i)` on the memoised state (the pulling loop has already run:
with the claim's "later call" reading, all compared calls see the chunks the
buffer holds); `none` is the `IndexError` path, which is also taken when the
parallel arrays are shorter than `num_tokens`. -/
def getRecord (b : RBuf) (i : Nat) : Option RBRecord :=
  if i < numTokens b then
    match b.text_offset[i]?, b.token_logprobs[i]?, b.tokens[i]?, b.top_logprobs[i]? with
    | some off, some lp, some tok, some tops =>
        some ⟨pySlice b.text off b.text_offset[i + 1]?, off, lp, tok, tops⟩
    | _, _, _, _ => none
  else none

/-- Parallel arrays aligned with `num_tokens`, and every recorded offset
within the buffered text. -/
def RBufWF (b : RBuf) : Prop :=
  b.text_offset.length = b.tokens.length
  ∧ b.token_logprobs.length = b.tokens.length
  ∧ b.top_logprobs.length = b.tokens.length
  ∧ ∀ o ∈ b.text_offset, o ≤ b.text.length

/-- A chunk whose offsets continue the buffer's cumulative text offsets:
aligned arrays, offsets bounded by the extended text, and the first offset
equal to the length of the text so far (an offset-free chunk carries no
text).  Echoed completion streams produce exactly such chunks. -/
def ChunkWF (base : Nat) (c : ApiChunk) : Prop :=
  c.text_offset.length = c.tokens.length
  ∧ c.token_logprobs.length = c.tokens.length
  ∧ c.top_logprobs.length = c.tokens.length
  ∧ (∀ o ∈ c.text_offset, o ≤ base + c.text.length)
  ∧ (c.text_offset.head? = some base ∨ (c.text_offset = [] ∧ c.text = []))

lemma pySlice_append_stop (t u : Str) (start stop : Nat) (h : stop ≤ t.length) :
    pySlice (t ++ u) start (some stop) = pySlice t start (some stop) := by
  show List.drop start (List.take stop (t ++ u)) = List.drop start (List.take stop t)
  rw [List.take_append_of_le_length h]

lemma pySlice_append_len (t u : Str) (start : Nat) :
    pySlice (t ++ u) start (some t.length) = pySlice t start none := by
  show List.drop start (List.take t.length (t ++ u)) = List.drop start t
  rw [List.take_left]

/-- C8, amended: provided the buffered chunks carry cumulative text offsets —
each appended chunk's arrays are aligned and its first offset equals the
length of the text buffered so far, as echoed completion streams guarantee —
a record once returned by `get(i)` is returned unchanged by every later call,
even after further chunks are pulled; appending preserves this
well-formedness; and indices are dense (`get(j)` succeeds exactly for
`j < num_tokens`). -/
theorem c8_response_buffer_amended (b : RBuf) (c : ApiChunk) (i : Nat) (r : RBRecord)
    (hb : RBufWF b) (hc : ChunkWF b.text.length c) (hr : getRecord b i = some r) :
    getRecord (appendChunk b c) i = some r
    ∧ RBufWF (appendChunk b c)
    ∧ (∀ j, (getRecord b j).isSome ↔ j < numTokens b) := by
  obtain ⟨hb1, hb2, hb3, hb4⟩ := hb
  obtain ⟨hc1, hc2, hc3, hc4, hc5⟩ := hc
  have hi : i < numTokens b := by
    by_contra hlt
    simp [getRecord, hlt] at hr
  have hi1 : i < b.text_offset.length := by rw [hb1]; exact hi
  have hi2 : i < b.token_logprobs.length := by rw [hb2]; exact hi
  have hi3 : i < b.tokens.length := hi
  have hi4 : i < b.top_logprobs.length := by rw [hb3]; exact hi
  simp only [getRecord, hi, if_true, List.getElem?_eq_getElem hi1,
    List.getElem?_eq_getElem hi2, List.getElem?_eq_getElem hi3,
    List.getElem?_eq_getElem hi4, Option.some.injEq] at hr
  refine ⟨?_, ?_, ?_⟩
  · have hi' : i < b.tokens.length + c.tokens.length := by omega
    simp only [getRecord, appendChunk, numTokens, List.length_append, hi', if_true,
      List.getElem?_append_left hi1, List.getElem?_append_left hi2,
      List.getElem?_append_left hi3, List.getElem?_append_left hi4,
      List.getElem?_eq_getElem hi1, List.getElem?_eq_getElem hi2,
      List.getElem?_eq_getElem hi3, List.getElem?_eq_getElem hi4,
      Option.some.injEq]
    rw [← hr]
    by_cases h2 : i + 1 < b.text_offset.length
    · rw [List.getElem?_append_left h2, List.getElem?_eq_getElem h2]
      have hv : b.text_offset[i + 1] ≤ b.text.length := hb4 _ (List.getElem_mem h2)
      rw [pySlice_append_stop _ _ _ _ hv]
    · have h2' : b.text_offset.length ≤ i + 1 := Nat.le_of_not_lt h2
      rw [List.getElem?_append_right h2', List.getElem?_eq_none h2']
      have hzero : i + 1 - b.text_offset.length = 0 := by omega
      rw [hzero]
      rcases hc5 with hhead | ⟨hnil, htext⟩
      · rw [show c.text_offset[0]? = c.text_offset.head? from
          (List.head?_eq_getElem? _).symm, hhead, pySlice_append_len]
      · rw [hnil, htext]
        simp
  · refine ⟨?_, ?_, ?_, ?_⟩
    · show (b.text_offset ++ c.text_offset).length = (b.tokens ++ c.tokens).length
      rw [List.length_append, List.length_append, hb1, hc1]
    · show (b.token_logprobs ++ c.token_logprobs).length = (b.tokens ++ c.tokens).length
      rw [List.length_append, List.length_append, hb2, hc2]
    · show (b.top_logprobs ++ c.top_logprobs).length = (b.tokens ++ c.tokens).length
      rw [List.length_append, List.length_append, hb3, hc3]
    · intro o ho
      show o ≤ (b.text ++ c.text).length
      rw [List.length_append]
      rcases List.mem_append.mp ho with ho | ho
      · have := hb4 o ho
        omega
      · have := hc4 o ho
        omega
  · intro j
    by_cases hj : j < numTokens b
    · have hj1 : j < b.text_offset.length := by rw [hb1]; exact hj
      have hj2 : j < b.token_logprobs.length := by rw [hb2]; exact hj
      have hj3 : j < b.tokens.length := hj
      have hj4 : j < b.top_logprobs.length := by rw [hb3]; exact hj
      simp [getRecord, hj, List.getElem?_eq_getElem hj1, List.getElem?_eq_getElem hj2,
        List.getElem?_eq_getElem hj3, List.getElem?_eq_getElem hj4]
    · simp [getRecord, hj]

/-- A chat-style synthesized chunk: two tokens, text `"ab"`, all text offsets
zero (as `chat_api` produces). -/
def c8Chunk1 : ApiChunk := ⟨"ab".data, [0, 0], [0, 0], ["a".data, "b".data], [[], []]⟩

/-- A second chat-style chunk with zero offsets. -/
def c8Chunk2 : ApiChunk := ⟨"cd".data, [0, 0], [0, 0], ["c".data, "d".data], [[], []]⟩

/-- The buffer after pulling `c8Chunk1`. -/
def c8Buf1 : RBuf := appendChunk emptyRBuf c8Chunk1

/-- C8, counterexample: with the zero text offsets produced for chat streams,
`get(1)` first returns a record with text `"ab"`, but after one more chunk is
pulled the same `get(1)` returns a record with text `""` — a delivered record
is mutated by later pulls. -/
theorem c8_response_buffer_counterexample :
    getRecord c8Buf1 1 = some ⟨"ab".data, 0, 0, "b".data, []⟩
    ∧ getRecord (appendChunk c8Buf1 c8Chunk2) 1 = some ⟨"".data, 0, 0, "b".data, []⟩
    ∧ getRecord (appendChunk c8Buf1 c8Chunk2) 1 ≠ getRecord c8Buf1 1 := by
  refine ⟨by decide, by decide, by decide⟩

/-- A buffer with cumulative offsets (tokens `"a"`, `"b"` at offsets 0, 1). -/
def c8BufW : RBuf := ⟨"ab".data, [0, 1], [0, 0], ["a".data, "b".data], [[], []]⟩

/-- A well-formed continuation chunk for `c8BufW` (offsets 2, 3). -/
def c8ChunkW : ApiChunk := ⟨"cd".data, [2, 3], [0, 0], ["c".data, "d".data], [[], []]⟩

/-- C8, witness for the amended theorem on a concrete well-formed buffer. -/
theorem c8_response_buffer_amended_witness :
    getRecord (appendChunk c8BufW c8ChunkW) 1 = some ⟨"b".data, 1, 0, "b".data, []⟩
    ∧ RBufWF (appendChunk c8BufW c8ChunkW)
    ∧ (∀ j, (getRecord c8BufW j).isSome ↔ j < numTokens c8BufW) :=
  c8_response_buffer_amended c8BufW c8ChunkW 1 ⟨"b".data, 1, 0, "b".data, []⟩
    (by unfold RBufWF; decide) (by unfold ChunkWF; decide) (by decide)

/-! ## Role-tag parsing and chat serialization
(`src/lmql/runtime/bopenai/openai_api.py`, `tagged_segments`, lines 103–114;
`chat_api` role assignment, lines 231–249;
`src/lmql/runtime/formatting.py`, `format_chat`, lines 19–24)

    def tagged_segments(s):
        segments = []
        current_tag = None
        offset = 0
        for m in re.finditer(r"<lmql:(.*?)\/>", s):
            if m.start() - offset > 0:
                segments.append({"tag": current_tag, "text": s[offset:m.start()]})
            current_tag = m.group(1)
            offset = m.end()
        segments.append({"tag": current_tag, "text": s[offset:]})
        return segments

The regex finds the leftmost `<lmql:`, lazily extends the group to the first
`/>` (with `.` not matching a newline), and resumes scanning after the match.
`format_chat(chat)` is `"".join(f"<lmql:{m['role']}/>{m['content']}")`. -/

/-- A chat message (`{"role": ..., "content": ...}`). -/
structure ChatMsg where
  role : Str
  content : Str
deriving DecidableEq

/-- The literal `"<lmql:"`. -/
def lmqlOpen : Str := "<lmql:".data

lemma lmqlOpen_chars : lmqlOpen = ['<', 'l', 'm', 'q', 'l', ':'] := rfl

/-- `format_chat` from `src/lmql/runtime/formatting.py`. -/
def format_chat : List ChatMsg → Str
  | [] => []
  | m :: rest => lmqlOpen ++ m.role ++ "/>".data ++ m.content ++ format_chat rest

/-- Whether the regex can match starting at this position (`"<lmql:"` next). -/
def isLmqlStart (cs : Str) : Bool := lmqlOpen.isPrefixOf cs

/-- The lazy group of `<lmql:(.*?)\/>` after the opening literal: the
characters up to the first `"/>"`, failing on a newline (which `.` cannot
match).  Returns the group and the text after the match. -/
def tagEnd : Str → Option (Str × Str)
  | [] => none
  | c :: rest =>
    if c = '\n' then none
    else if c = '/' ∧ rest.head? = some '>' then some ([], rest.tail)
    else (tagEnd rest).map (fun p => (c :: p.1, p.2))

/-- The leftmost regex match in `cs`: the text before the match, the tag
group, and the text after the match.  When the opening literal is present but
no `"/>"` completes the match, scanning resumes one character later, exactly
as `re` does. -/
def matchTag : Str → Option (Str × Str × Str)
  | [] => none
  | c :: rest =>
    if isLmqlStart (c :: rest) then
      match tagEnd ((c :: rest).drop 6) with
      | some p => some ([], p.1, p.2)
      | none => (matchTag rest).map (fun r => (c :: r.1, r.2))
    else (matchTag rest).map (fun r => (c :: r.1, r.2))

/-- The `finditer` loop of `tagged_segments`, with explicit fuel (one unit
per regex match; every match consumes at least 8 characters, so
`cs.length` units always suffice). -/
def segsAuxF : Nat → Option Str → Str → List (Option Str × Str)
  | 0, curTag, cs => [(curTag, cs)]
  | fuel + 1, curTag, cs =>
    match matchTag cs with
    | none => [(curTag, cs)]
    | some (pre, tag, suffix) =>
        (if 0 < pre.length then [(curTag, pre)] else []) ++ segsAuxF fuel (some tag) suffix

/-- `tagged_segments(s)`: the list of `(tag, text)` segments. -/
def tagged_segments (cs : Str) : List (Option Str × Str) := segsAuxF cs.length none cs

/-- The role assigned to a parsed segment by `chat_api` (lines 232–244):
`system`/`assistant`/`user` map to themselves, a missing or unknown tag
becomes `"user"`. -/
def roleOf : Option Str → Str
  | none => "user".data
  | some t =>
    if t = "system".data then t
    else if t = "assistant".data then t
    else if t = "user".data then t
    else "user".data

/-- The `messages` list `chat_api` builds from a prompt. -/
def chat_messages (cs : Str) : List ChatMsg :=
  (tagged_segments cs).map (fun seg => ⟨roleOf seg.1, seg.2⟩)

lemma isLmqlStart_head (c : Char) (cs : Str) (h : c ≠ '<') :
    isLmqlStart (c :: cs) = false := by
  unfold isLmqlStart
  rw [lmqlOpen_chars]
  simp [List.isPrefixOf]
  intro hc
  exact absurd hc.symm h

lemma isLmqlStart_self (xs : Str) : isLmqlStart (lmqlOpen ++ xs) = true := by
  unfold isLmqlStart
  rw [lmqlOpen_chars]
  simp [List.isPrefixOf]

lemma tagEnd_spec (zs ws : Str) (h : ∀ a ∈ zs, a ≠ '\n' ∧ a ≠ '/') :
    tagEnd (zs ++ '/' :: '>' :: ws) = some (zs, ws) := by
  induction zs with
  | nil => simp [tagEnd]
  | cons a zs ih =>
    have ha := h a (List.mem_cons_self a zs)
    rw [List.cons_append, tagEnd]
    rw [if_neg ha.1, if_neg (by intro hc; exact ha.2 hc.1)]
    rw [ih (fun b hb => h b (List.mem_cons_of_mem a hb))]
    rfl

lemma matchTag_none (xs : Str) (h : ∀ a ∈ xs, a ≠ '<') : matchTag xs = none := by
  induction xs with
  | nil => rfl
  | cons c rest ih =>
    rw [matchTag, isLmqlStart_head c rest (h c (List.mem_cons_self c rest))]
    simp only [Bool.false_eq_true, if_false]
    rw [ih (fun a ha => h a (List.mem_cons_of_mem c ha))]
    rfl

lemma matchTag_append (xs ys : Str) (h : ∀ a ∈ xs, a ≠ '<') :
    matchTag (xs ++ ys) = (matchTag ys).map (fun r => (xs ++ r.1, r.2)) := by
  induction xs with
  | nil =>
    rcases hy : matchTag ys with _ | ⟨p, t, s⟩ <;> simp [hy]
  | cons c rest ih =>
    rw [List.cons_append, matchTag,
      isLmqlStart_head c (rest ++ ys) (h c (List.mem_cons_self c rest))]
    simp only [Bool.false_eq_true, if_false]
    rw [ih (fun a ha => h a (List.mem_cons_of_mem c ha))]
    rcases hy : matchTag ys with _ | ⟨p, t, s⟩ <;> simp [hy]

lemma matchTag_tag (r ws : Str) (hr : ∀ a ∈ r, a ≠ '\n' ∧ a ≠ '/') :
    matchTag (lmqlOpen ++ (r ++ '/' :: '>' :: ws)) = some ([], r, ws) := by
  have hstart := isLmqlStart_self (r.tail ++ '/' :: '>' :: ws)
  rw [lmqlOpen_chars]
  simp only [List.cons_append, List.nil_append]
  rw [matchTag]
  rw [show isLmqlStart
      ('<' :: 'l' :: 'm' :: 'q' :: 'l' :: ':' :: (r ++ '/' :: '>' :: ws)) = true from by
    have := isLmqlStart_self (r ++ '/' :: '>' :: ws)
    rwa [lmqlOpen_chars] at this]
  simp only [if_true, List.drop_succ_cons, List.drop_zero]
  rw [tagEnd_spec r ws hr]

lemma format_chat_cons (m : ChatMsg) (rest : List ChatMsg) :
    format_chat (m :: rest)
      = lmqlOpen ++ (m.role ++ '/' :: '>' :: (m.content ++ format_chat rest)) := by
  have h2 : "/>".data = ['/', '>'] := rfl
  rw [format_chat, h2]
  simp [List.append_assoc]

lemma format_chat_cons_length (m : ChatMsg) (rest : List ChatMsg) :
    (format_chat (m :: rest)).length
      = 8 + m.role.length + m.content.length + (format_chat rest).length := by
  rw [format_chat_cons, lmqlOpen_chars]
  simp [List.length_append]
  omega

lemma roleChars (r : Str)
    (h : r = "system".data ∨ r = "user".data ∨ r = "assistant".data) :
    ∀ a ∈ r, a ≠ '\n' ∧ a ≠ '/' := by
  rcases h with rfl | rfl | rfl <;> decide

lemma roleOf_valid (r : Str)
    (h : r = "system".data ∨ r = "user".data ∨ r = "assistant".data) :
    roleOf (some r) = r := by
  rcases h with rfl | rfl | rfl <;> decide

lemma segsAux_content :
    ∀ (chat : List ChatMsg) (fuel : Nat) (curTag : Option Str) (c : Str),
      (∀ m ∈ chat, m.role = "system".data ∨ m.role = "user".data
        ∨ m.role = "assistant".data) →
      (∀ m ∈ chat, ∀ a ∈ m.content, a ≠ '<') →
      (∀ m ∈ chat, m.content ≠ []) →
      (∀ a ∈ c, a ≠ '<') →
      (chat ≠ [] → c ≠ []) →
      c.length + (format_chat chat).length ≤ fuel →
      segsAuxF fuel curTag (c ++ format_chat chat)
        = (curTag, c) :: chat.map (fun m => (some m.role, m.content)) := by
  intro chat
  induction chat with
  | nil =>
    intro fuel curTag c _ _ _ hc _ _
    cases fuel with
    | zero => simp [format_chat, segsAuxF]
    | succ f =>
      simp only [format_chat, List.append_nil]
      rw [segsAuxF, matchTag_none c hc]
      simp
  | cons m rest ih =>
    intro fuel curTag c hroles hcont hne hc hcne hfuel
    have hrolem := hroles m (List.mem_cons_self m rest)
    have hrchars : ∀ a ∈ m.role, a ≠ '\n' ∧ a ≠ '/' := roleChars m.role hrolem
    have hlen := format_chat_cons_length m rest
    cases fuel with
    | zero => omega
    | succ f =>
      rw [format_chat_cons m rest, segsAuxF]
      rw [matchTag_append c _ hc, matchTag_tag m.role _ hrchars]
      have hcpos : 0 < c.length := by
        have hcne2 := hcne (by simp)
        cases c with
        | nil => exact absurd rfl hcne2
        | cons _ _ => simp
      simp only [Option.map_some', List.append_nil, hcpos, if_true]
      rw [ih f (some m.role) m.content
        (fun x hx => hroles x (List.mem_cons_of_mem m hx))
        (fun x hx => hcont x (List.mem_cons_of_mem m hx))
        (fun x hx => hne x (List.mem_cons_of_mem m hx))
        (hcont m (List.mem_cons_self m rest))
        (fun _ => hne m (List.mem_cons_self m rest))
        (by omega)]
      simp

/-- C7, counterexample: for the prompt `"x"` (no role tag), the parsed
segments serialize to `"<lmql:user/>x"`, not back to `"x"`, so serializing
the parsed list does not recover every prompt. -/
theorem c7_roundtrip_counterexample :
    format_chat (chat_messages "x".data) = "<lmql:user/>x".data
    ∧ format_chat (chat_messages "x".data) ≠ "x".data := by
  refine ⟨by decide, by decide⟩

/-- C7, amended: on prompts in the image of the chat-message serializer —
serializations of a non-empty message list whose roles are `system`, `user`
or `assistant` and whose contents are non-empty and free of `'<'` — parsing
recovers exactly the original messages (with the roles the chat translation
assigns), and therefore serializing the parsed segments recovers the
prompt. -/
theorem c7_roundtrip_amended (chat : List ChatMsg)
    (hchat : chat ≠ [])
    (hroles : ∀ m ∈ chat, m.role = "system".data ∨ m.role = "user".data
      ∨ m.role = "assistant".data)
    (hcont : ∀ m ∈ chat, ∀ a ∈ m.content, a ≠ '<')
    (hne : ∀ m ∈ chat, m.content ≠ []) :
    chat_messages (format_chat chat) = chat
    ∧ format_chat (chat_messages (format_chat chat)) = format_chat chat := by
  have hsegs : tagged_segments (format_chat chat)
      = chat.map (fun m => (some m.role, m.content)) := by
    cases chat with
    | nil => exact absurd rfl hchat
    | cons m rest =>
      unfold tagged_segments
      have hrolem := hroles m (List.mem_cons_self m rest)
      have hrchars : ∀ a ∈ m.role, a ≠ '\n' ∧ a ≠ '/' := roleChars m.role hrolem
      have hlen := format_chat_cons_length m rest
      obtain ⟨l, hl⟩ : ∃ l, (format_chat (m :: rest)).length = l + 1 :=
        ⟨(format_chat (m :: rest)).length - 1, by omega⟩
      rw [hl, format_chat_cons m rest, segsAuxF, matchTag_tag m.role _ hrchars]
      simp only [List.length_nil, Nat.lt_irrefl, if_false, List.nil_append]
      rw [segsAux_content rest l (some m.role) m.content
        (fun x hx => hroles x (List.mem_cons_of_mem m hx))
        (fun x hx => hcont x (List.mem_cons_of_mem m hx))
        (fun x hx => hne x (List.mem_cons_of_mem m hx))
        (hcont m (List.mem_cons_self m rest))
        (fun _ => hne m (List.mem_cons_self m rest))
        (by rw [format_chat_cons_length] at hl; omega)]
      simp
  have hmsg : chat_messages (format_chat chat) = chat := by
    unfold chat_messages
    rw [hsegs, List.map_map]
    have hcong : ∀ x ∈ chat,
        ((fun seg : Option Str × Str => ChatMsg.mk (roleOf seg.1) seg.2)
          ∘ (fun m => (some m.role, m.content))) x = id x := by
      intro x hx
      have := roleOf_valid x.role (hroles x hx)
      simp [Function.comp, this]
    rw [List.map_congr_left hcong, List.map_id]
  exact ⟨hmsg, by rw [hmsg]⟩

/-- C7, witness for the amended theorem on the two-message chat
`system:"S"`, `user:"U"`. -/
theorem c7_roundtrip_amended_witness :
    chat_messages (format_chat [⟨"system".data, "S".data⟩, ⟨"user".data, "U".data⟩])
      = [⟨"system".data, "S".data⟩, ⟨"user".data, "U".data⟩]
    ∧ format_chat (chat_messages
        (format_chat [⟨"system".data, "S".data⟩, ⟨"user".data, "U".data⟩]))
      = format_chat [⟨"system".data, "S".data⟩, ⟨"user".data, "U".data⟩] :=
  c7_roundtrip_amended [⟨"system".data, "S".data⟩, ⟨"user".data, "U".data⟩]
    (by decide) (by decide) (by decide) (by decide)
